import Mathlib

/-!
# Verification of the workflow telemetry collector/exporter

Shallow embedding of the reconstruction/normalization core of the
GitHub-Actions OpenTelemetry exporter: the job resolver, step normalizer,
conclusion inferencer (`lib/collector.js`) and the metric/trace emission
functions (`lib/exporter.js`), together with proofs of the spec's claims
about them.

Modelling conventions:
* GitHub API timestamp strings are modelled by `RawTime`: a falsy field
  (null / undefined / empty string) is `missing`, a non-empty string that
  fails to parse is `malformed` (JavaScript `new Date` yields an Invalid
  Date), and a well-formed string is `stamp ms` (epoch milliseconds).
* JavaScript `Date` values are `JsDate`: `null` (no date constructed),
  `invalid` (Invalid Date, whose numeric value is NaN), or `valid ms`.
  A `Date` object is truthy even when invalid; only `null` is falsy.
* JavaScript numbers arising from `Date` subtraction are `Option Int`:
  `none` models NaN (subtraction involving an Invalid Date), `some v`
  a finite value.  `NaN > 0` is false, matching `jsGtZero`.
* `process.env` strings are `Option String`; JS truthiness of a string
  (non-empty) is checked explicitly where the source does.
-/

namespace OtelAction

/-- A nullable timestamp string field of a raw API record. -/
inductive RawTime where
  | missing
  | malformed
  | stamp (ms : Int)
deriving DecidableEq

/-- A JavaScript `Date`-or-null value. `invalid` is an Invalid Date
(truthy as an object, NaN as a number). -/
inductive JsDate where
  | null
  | invalid
  | valid (ms : Int)
deriving DecidableEq

/-- JS truthiness of a `Date`-or-null value: every `Date` object is
truthy, only `null`/undefined is falsy. -/
def jsTruthyDate : JsDate → Bool
  | JsDate.null => false
  | JsDate.invalid => true
  | JsDate.valid _ => true

/-- `step.started_at ? new Date(step.started_at) : null`. -/
def jsNewDate : RawTime → JsDate
  | RawTime.missing => JsDate.null
  | RawTime.malformed => JsDate.invalid
  | RawTime.stamp ms => JsDate.valid ms

/-- JavaScript `Date` subtraction `a - b`; `none` models NaN (an Invalid
Date involved). Only called on truthy dates in the sources. -/
def jsDateSub : JsDate → JsDate → Option Int
  | JsDate.valid a, JsDate.valid b => some (a - b)
  | _, _ => none

/-- JS `x > 0` on a possibly-NaN number: NaN compares false. -/
def jsGtZero : Option Int → Bool
  | some v => 0 < v
  | none => false

/-- A raw step record from the jobs API (`job.steps[i]`). -/
structure RawStep where
  name : String
  status : String
  conclusion : Option String
  number : Int
  started_at : RawTime
  completed_at : RawTime
deriving DecidableEq

/-- A raw job record from the jobs API. -/
structure RawJob where
  id : Int
  name : String
  status : String
  conclusion : Option String
  runner_name : Option String
  started_at : RawTime
  completed_at : RawTime
  steps : List RawStep
  labels : List String
deriving DecidableEq

/-- A normalized step as produced by `parseSteps`. `durationMs` is a JS
number: `none` models NaN. -/
structure NormalizedStep where
  name : String
  status : String
  conclusion : Option String
  number : Int
  startedAt : JsDate
  completedAt : JsDate
  durationMs : Option Int
deriving DecidableEq

/-- `parseSteps` from `lib/collector.js`: maps each raw step to a
normalized step; `durationMs = startedAt && completedAt ? completedAt -
startedAt : 0` (no clamping, no validity check on parsed dates). -/
def parseSteps (rawSteps : List RawStep) : List NormalizedStep :=
  rawSteps.map (fun step =>
    let startedAt := jsNewDate step.started_at
    let completedAt := jsNewDate step.completed_at
    let durationMs :=
      if jsTruthyDate startedAt && jsTruthyDate completedAt then
        jsDateSub completedAt startedAt
      else some 0
    { name := step.name, status := step.status, conclusion := step.conclusion,
      number := step.number, startedAt := startedAt, completedAt := completedAt,
      durationMs := durationMs })

/-- Job timing as returned by `calculateJobDuration`. -/
structure JobTiming where
  jobStartedAt : JsDate
  jobCompletedAt : JsDate
  jobDurationMs : Option Int
deriving DecidableEq

/-- `calculateJobDuration` from `lib/collector.js`:
`job.started_at ? new Date(job.started_at) : new Date()` (and likewise
for `completed_at`), then `jobCompletedAt - jobStartedAt`.  The two
`new Date()` calls are modelled as the same instant `now` (epoch ms). -/
def calculateJobDuration (job : RawJob) (now : Int) : JobTiming :=
  let jobStartedAt :=
    match job.started_at with
    | RawTime.missing => JsDate.valid now
    | t => jsNewDate t
  let jobCompletedAt :=
    match job.completed_at with
    | RawTime.missing => JsDate.valid now
    | t => jsNewDate t
  { jobStartedAt := jobStartedAt, jobCompletedAt := jobCompletedAt,
    jobDurationMs := jsDateSub jobCompletedAt jobStartedAt }

/-- The step-inference part of `inferJobConclusion` (the body after the
early return): filter to steps with non-null conclusion, then the
failure / cancelled / all-success-or-skipped / unknown priority chain. -/
def inferConclusionFromSteps (steps : List NormalizedStep) : String :=
  let completedSteps := steps.filter (fun s => s.conclusion.isSome)
  if completedSteps.any (fun s => s.conclusion == some "failure") then
    "failure"
  else if completedSteps.any (fun s => s.conclusion == some "cancelled") then
    "cancelled"
  else if 0 < completedSteps.length ∧
      completedSteps.all
        (fun s => s.conclusion == some "success" || s.conclusion == some "skipped") = true then
    "success"
  else
    "unknown"

/-- `inferJobConclusion` from `lib/collector.js`: the guard
`if (jobConclusion && jobConclusion !== 'unknown') return jobConclusion`
short-circuits on a truthy (non-null, non-empty) conclusion other than
the sentinel `"unknown"`; otherwise the conclusion is inferred from the
steps. -/
def inferJobConclusion (jobConclusion : Option String) (steps : List NormalizedStep) : String :=
  match jobConclusion with
  | some s => if s = "" ∨ s = "unknown" then inferConclusionFromSteps steps else s
  | none => inferConclusionFromSteps steps

/-- The matrix-name matches of `findCurrentJob`:
`jobs.filter(job => job.name.startsWith(currentJobName + ' ('))`. -/
def matrixLegs (jobs : List RawJob) (currentJobName : String) : List RawJob :=
  jobs.filter (fun job => (currentJobName ++ " (").isPrefixOf job.name)

/-- The numeric sort key of the last-resort recency sort:
`a.started_at ? new Date(a.started_at) : new Date(0)`.  A malformed
timestamp would be an Invalid Date whose comparator value is NaN (which
the ECMAScript sort treats as equality); it is mapped to epoch 0 here and
the recency theorems exclude malformed start times by hypothesis. -/
def sortKey (j : RawJob) : Int :=
  match j.started_at with
  | RawTime.stamp t => t
  | _ => 0

/-- `matrixJobs.sort((a, b) => bTime - aTime)[0]`: the stable descending
sort's head is the earliest element attaining the maximal `sortKey`,
computed here as a fold keeping the current best and replacing it only on
a strictly greater key. -/
def mostRecent (a : RawJob) (rest : List RawJob) : RawJob :=
  rest.foldl (fun best j => if sortKey best < sortKey j then j else best) a

/-- The `byRunner` constant of `findCurrentJob`: if `RUNNER_NAME` is a
truthy (defined, non-empty) environment string, the first matrix leg
whose `runner_name` field strictly equals it
(`matrixJobs.find(j => j.runner_name === runnerName)`). -/
def runnerPick (legs : List RawJob) (runnerName : Option String) : Option RawJob :=
  match runnerName with
  | some r =>
    if r = "" then none
    else legs.find? (fun j => j.runner_name == some r)
  | none => none

/-- `findCurrentJob` from `lib/collector.js`.  `runnerName` models
`process.env.RUNNER_NAME` (absent or a string; the source guards on its
truthiness).  The thrown `Error` is modelled as `Except.error` of its
message. -/
def findCurrentJob (jobs : List RawJob) (currentJobName : String)
    (runnerName : Option String) : Except String RawJob :=
  match jobs.find? (fun job => job.name == currentJobName) with
  | some currentJob => Except.ok currentJob
  | none =>
    match matrixLegs jobs currentJobName with
    | [only] => Except.ok only
    | a :: b :: rest =>
      match runnerPick (a :: b :: rest) runnerName with
      | some j => Except.ok j
      | none =>
        match (a :: b :: rest).find? (fun j => j.status == "in_progress") with
        | some j => Except.ok j
        | none => Except.ok (mostRecent a (b :: rest))
    | [] =>
      match jobs with
      | [] => Except.error "No jobs found for this workflow run"
      | job :: _ => Except.ok job

/-! ## Exporter (`lib/exporter.js`) -/

/-- The `standardPricing` per-minute table of `estimateJobCost` (USD per
minute, modelled as exact rationals). An unrecognized OS is absent from
the table; the source then falls back to price 0. -/
def standardPricing (runnerOS : String) : Option ℚ :=
  if runnerOS = "Linux" then some 0.008
  else if runnerOS = "Windows" then some 0.016
  else if runnerOS = "macOS" then some 0.08
  else none

/-- The `largerRunnerPricing` table of `estimateJobCost`, keyed by the
core-size string (`"<digits>-cores"`) and then by OS (Linux/Windows
only). -/
def largerRunnerPricing (coreSize runnerOS : String) : Option ℚ :=
  let pair : Option (ℚ × ℚ) :=
    if coreSize = "2-cores" then some (0.016, 0.032)
    else if coreSize = "4-cores" then some (0.032, 0.064)
    else if coreSize = "8-cores" then some (0.064, 0.128)
    else if coreSize = "16-cores" then some (0.128, 0.256)
    else if coreSize = "32-cores" then some (0.256, 0.512)
    else if coreSize = "64-cores" then some (0.512, 1.024)
    else none
  match pair with
  | some (linux, windows) =>
    if runnerOS = "Linux" then some linux
    else if runnerOS = "Windows" then some windows
    else none
  | none => none

/-- The capture group of `label.match(/(\d+)-cores?/)`: the first maximal
digit run immediately followed by `-core`.  (The regex engine's
backtracking cannot shorten a digit run, since the character after a
shortened run is a digit, not `-`; and a start position inside a run
fails exactly when the run's own start does.)  `run` accumulates the
digit run currently being scanned. -/
def coresScanAux (run : List Char) : List Char → Option (List Char)
  | [] => none
  | c :: cs =>
    if c.isDigit then coresScanAux (run ++ [c]) cs
    else if run ≠ [] ∧ "-core".toList.isPrefixOf (c :: cs) then some run
    else coresScanAux [] cs

/-- `(\d+)` capture of `runnerLabel.match(/(\d+)-cores?/)`, as a string. -/
def coresMatchGroup (label : String) : Option String :=
  (coresScanAux [] label.toList).map (fun cs => String.mk cs)

/-- `estimateJobCost` from `lib/exporter.js`: per-minute price from
`standardPricing[runnerOS] || 0`, overridden by the larger-runner table
when the label contains a `<n>-cores` marker and both lookups succeed;
cost = price × (durationMs / 60000). `none` duration models NaN. -/
def estimateJobCost (runnerOS : String) (runnerLabel : Option String)
    (durationMs : Option Int) : Option ℚ :=
  let base : ℚ := (standardPricing runnerOS).getD 0
  let pricePerMinute : ℚ :=
    match runnerLabel with
    | some label =>
      match coresMatchGroup label with
      | some digits =>
        match largerRunnerPricing (digits ++ "-cores") runnerOS with
        | some p => p
        | none => base
      | none => base
    | none => base
  match durationMs with
  | some d => some (pricePerMinute * ((d : ℚ) / 60000))
  | none => none

/-- The `metrics.job` slice of a MetricsRecord as consumed by
`recordMetrics`/`recordTraces`. -/
structure JobInfo where
  name : String
  id : Int
  status : String
  conclusion : Option String
  startedAt : JsDate
  completedAt : JsDate
  durationMs : Option Int
deriving DecidableEq

/-- The `metrics.repository` slice (`sizeKB` nullable). -/
structure RepoInfo where
  owner : String
  repo : String
  sizeKB : Option Int
deriving DecidableEq

/-- The `metrics.runner` slice. -/
structure RunnerInfo where
  os : String
  arch : String
  name : Option String
  labels : List String
deriving DecidableEq

/-- One entry of `metrics.artifacts.artifacts`. -/
structure ArtifactEntry where
  name : String
  sizeBytes : Int
deriving DecidableEq

/-- The optional `metrics.artifacts` summary. -/
structure ArtifactSummary where
  count : Int
  totalBytes : Int
  artifacts : List ArtifactEntry
deriving DecidableEq

/-- The canonical MetricsRecord, restricted to the fields that determine
which samples/spans the emission functions produce (the run/git/event
fields only populate attribute maps and affect no gating decision). -/
structure MetricsRecord where
  workflow : String
  job : JobInfo
  steps : List NormalizedStep
  repository : RepoInfo
  runner : Option RunnerInfo
  artifacts : Option ArtifactSummary
deriving DecidableEq

/-- `metrics.runner.labels && metrics.runner.labels.length > 0 ?
metrics.runner.labels[0] : null`. -/
def primaryRunnerLabel (r : RunnerInfo) : Option String :=
  match r.labels with
  | [] => none
  | l :: _ => some l

/-- One recorded measurement sample, in the order `recordMetrics` makes
its `.record(...)` calls. -/
inductive Emission where
  | jobDuration (value : Option Int)
  | repoSize (value : Int)
  | jobCost (value : Option ℚ)
  | artifactSize (name : String) (value : Int)
  | stepDuration (name : String) (value : Option Int)
deriving DecidableEq

/-- The `if (metrics.repository.sizeKB)` gauge block of `recordMetrics`:
the guard is JS truthiness of the number (null and 0 are both falsy). -/
def repoSizeSamples (sizeKB : Option Int) : List Emission :=
  match sizeKB with
  | some v => if v ≠ 0 then [Emission.repoSize v] else []
  | none => []

/-- The `if (metrics.runner && metrics.runner.os)` cost block of
`recordMetrics`: the guard is JS truthiness of the `os` string. -/
def costSamples (runner : Option RunnerInfo) (durationMs : Option Int) : List Emission :=
  match runner with
  | some r =>
    if r.os ≠ "" then
      [Emission.jobCost (estimateJobCost r.os (primaryRunnerLabel r) durationMs)]
    else []
  | none => []

/-- The `if (metrics.artifacts && metrics.artifacts.count > 0)` block of
`recordMetrics`: one size sample per artifact. -/
def artifactSamples (artifacts : Option ArtifactSummary) : List Emission :=
  match artifacts with
  | some a =>
    if 0 < a.count then
      a.artifacts.map (fun x => Emission.artifactSize x.name x.sizeBytes)
    else []
  | none => []

/-- The final step loop of `recordMetrics`: a duration sample exactly
when `step.durationMs > 0`. -/
def stepDurationSamples (steps : List NormalizedStep) : List Emission :=
  steps.filterMap (fun s =>
    if jsGtZero s.durationMs then some (Emission.stepDuration s.name s.durationMs)
    else none)

/-- `recordMetrics` from `lib/exporter.js`, as the sequence of samples it
records, in source order: the job-duration sample unconditionally, then
the repo-size gauge, cost histogram, per-artifact and per-step samples,
each behind the guard of its block above. -/
def recordMetrics (m : MetricsRecord) : List Emission :=
  [Emission.jobDuration m.job.durationMs]
  ++ repoSizeSamples m.repository.sizeKB
  ++ costSamples m.runner m.job.durationMs
  ++ artifactSamples m.artifacts
  ++ stepDurationSamples m.steps

/-- A child span produced by `recordTraces` for one step. -/
structure StepSpan where
  name : String
  startTime : JsDate
  endTime : JsDate
  isError : Bool
deriving DecidableEq

/-- The observable trace output of `recordTraces`: the child spans, and
whether the root job span got error status and was explicitly ended. -/
structure TraceOutput where
  stepSpans : List StepSpan
  jobSpanErrorStatus : Bool
  jobSpanEnded : Bool
deriving DecidableEq

/-- `recordTraces` from `lib/exporter.js`: one child span per step with
both timestamps truthy (error status iff the step's conclusion is
`"failure"`); the job span is ended only inside
`if (metrics.job.completedAt)`, and its error status is set only inside
that same guard, when `metrics.job.conclusion === 'failure'`. -/
def recordTraces (m : MetricsRecord) : TraceOutput :=
  { stepSpans := m.steps.filterMap (fun step =>
      if jsTruthyDate step.startedAt && jsTruthyDate step.completedAt then
        some { name := step.name, startTime := step.startedAt,
               endTime := step.completedAt,
               isError := step.conclusion == some "failure" }
      else none)
    jobSpanErrorStatus :=
      jsTruthyDate m.job.completedAt && (m.job.conclusion == some "failure")
    jobSpanEnded := jsTruthyDate m.job.completedAt }

/-- The `runner.os` field as set by `buildMetricsObject`:
`process.env.RUNNER_OS || 'unknown'`. -/
def buildRunnerOS (envRunnerOS : Option String) : String :=
  match envRunnerOS with
  | some s => if s = "" then "unknown" else s
  | none => "unknown"

/-! ## Theorems -/

/-- The duration `parseSteps` actually computes for one raw step, by case
on its two raw timestamp fields: both well-formed → unclamped difference;
either field falsy → 0; otherwise (a present but malformed field) → NaN. -/
def rawStepDuration (s : RawStep) : Option Int :=
  match s.started_at, s.completed_at with
  | RawTime.stamp a, RawTime.stamp b => some (b - a)
  | RawTime.missing, _ => some 0
  | _, RawTime.missing => some 0
  | _, _ => none

/-- **C3 (amended)**: the Step Normalizer is a total function preserving
order and names; for a step with both timestamps present and well-formed,
`durationMs = completedAt − startedAt`, unclamped (negative when the
completion precedes the start); for a step with either timestamp field
missing, `durationMs = 0`; a present but malformed timestamp is not
treated as absent — it yields a NaN `durationMs`. -/
theorem parseSteps_duration_characterization (rawSteps : List RawStep) :
    (parseSteps rawSteps).map (fun s => s.name) = rawSteps.map (fun s => s.name) ∧
    (parseSteps rawSteps).map (fun s => s.durationMs) = rawSteps.map rawStepDuration := by
  constructor
  · simp [parseSteps]
  · simp only [parseSteps, List.map_map]
    apply List.map_congr_left
    intro s _
    cases h1 : s.started_at <;> cases h2 : s.completed_at <;>
      simp [rawStepDuration, jsNewDate, jsTruthyDate, jsDateSub, h1, h2]

/-- A step whose well-formed completion timestamp precedes its
well-formed start timestamp (as delivered by the jobs API, both fields
present). -/
def reversedStep : RawStep :=
  { name := "Checkout", status := "completed", conclusion := some "success",
    number := 1, started_at := RawTime.stamp 10000,
    completed_at := RawTime.stamp 3000 }

/-- **C3 counterexample**: on a step with both timestamps present and
well-formed but out of order, `parseSteps` returns a strictly negative
`durationMs` — the claimed `max(0, completedAt − startedAt)` clamp does
not exist in the code. -/
theorem parseSteps_negative_duration_cex :
    (parseSteps [reversedStep]).map (fun s => s.durationMs) = [some (-7000)] ∧
    (-7000 : Int) < 0 := by
  exact ⟨rfl, by decide⟩

/-- **C9 (amended)**: `calculateJobDuration` substitutes the current
instant for each missing job timestamp independently and never clamps:
when the completion timestamp is present (and well-formed) and earlier
than the current instant while the start timestamp is missing, the
returned duration is `completedAt − now`, which is negative. -/
theorem calculateJobDuration_negative_when_start_missing (job : RawJob)
    (now t : Int)
    (hs : job.started_at = RawTime.missing)
    (hc : job.completed_at = RawTime.stamp t)
    (hlt : t < now) :
    (calculateJobDuration job now).jobDurationMs = some (t - now) ∧ t - now < 0 := by
  refine ⟨?_, by omega⟩
  simp [calculateJobDuration, hs, hc, jsNewDate, jsDateSub]

/-- A job observed mid-flight with a recorded completion but no recorded
start (the shape that makes `calculateJobDuration` go negative). -/
def inFlightJob : RawJob :=
  { id := 1, name := "build", status := "in_progress", conclusion := none,
    runner_name := none, started_at := RawTime.missing,
    completed_at := RawTime.stamp 5, steps := [], labels := [] }

/-- Witness for `calculateJobDuration_negative_when_start_missing` at a
concrete job and instant. -/
theorem calculateJobDuration_negative_witness :
    (calculateJobDuration inFlightJob 10).jobDurationMs = some (5 - 10) ∧
    (5 : Int) - 10 < 0 :=
  calculateJobDuration_negative_when_start_missing inFlightJob 10 5 rfl rfl (by decide)

/-- A step of `parseSteps` input showing that step durations, too, carry
no non-negativity guarantee (refuting the "unlike step duration"
contrast of the claim). -/
def outOfOrderStep : RawStep :=
  { name := "Build", status := "completed", conclusion := some "success",
    number := 2, started_at := RawTime.stamp 60000,
    completed_at := RawTime.stamp 59000 }

/-- **C9 counterexample**: the claim's closing contrast ("unlike step
duration") asserts a non-negativity guarantee for step durations; the
Step Normalizer in fact also returns a negative duration when both step
timestamps are present but out of order. -/
theorem step_duration_not_nonnegative_cex :
    (parseSteps [outOfOrderStep]).map (fun s => s.durationMs) = [some (-1000)] ∧
    (-1000 : Int) < 0 := by
  exact ⟨rfl, by decide⟩

/-- **C8 (amended)**: Trace Emission explicitly ends the job's root span
iff the record carries a (truthy) completion timestamp, and sets error
status on it iff, *in addition to* a truthy completion timestamp, the
inferred conclusion is `"failure"` — the error-status assignment sits
inside the completion-timestamp guard, so a failed record lacking a
completion timestamp is left open *without* error status. -/
theorem recordTraces_job_span_status (m : MetricsRecord) :
    ((recordTraces m).jobSpanEnded = true ↔ jsTruthyDate m.job.completedAt = true) ∧
    ((recordTraces m).jobSpanErrorStatus = true ↔
      (jsTruthyDate m.job.completedAt = true ∧ m.job.conclusion = some "failure")) := by
  constructor
  · simp [recordTraces]
  · simp [recordTraces]

/-- A metrics record for a failed job that the API has not yet stamped
with a completion timestamp. -/
def openFailedRecord : MetricsRecord :=
  { workflow := "CI",
    job := { name := "build", id := 7, status := "in_progress",
             conclusion := some "failure", startedAt := JsDate.valid 0,
             completedAt := JsDate.null, durationMs := some 0 },
    steps := [], repository := { owner := "o", repo := "r", sizeKB := none },
    runner := none, artifacts := none }

/-- **C8 counterexample**: a record whose inferred conclusion is
`"failure"` but which lacks a completion timestamp gets *no* error status
on the root span (and the span is not ended), contradicting "sets error
status … whenever the inferred job conclusion is 'failure'". -/
theorem recordTraces_no_error_without_completion_cex :
    openFailedRecord.job.conclusion = some "failure" ∧
    (recordTraces openFailedRecord).jobSpanErrorStatus = false ∧
    (recordTraces openFailedRecord).jobSpanEnded = false := by
  exact ⟨rfl, rfl, rfl⟩

/-- The step-inference path only ever produces one of the four literal
conclusions. -/
lemma inferConclusionFromSteps_mem_four (steps : List NormalizedStep) :
    inferConclusionFromSteps steps ∈
      (["success", "failure", "cancelled", "unknown"] : List String) := by
  simp only [inferConclusionFromSteps]
  split_ifs <;> decide

/-- **C4 (amended)**: the inferred conclusion is never null/empty; on the
inference path (raw conclusion falsy or the sentinel `"unknown"`) it is
always one of {success, failure, cancelled, unknown}; but on the
short-circuit path a present, truthy, non-`"unknown"` raw conclusion is
returned unchanged — including values outside that four-element set
(e.g. `"timed_out"`, `"neutral"`). -/
theorem inferJobConclusion_never_null (jobConclusion : Option String)
    (steps : List NormalizedStep) :
    inferJobConclusion jobConclusion steps ≠ "" ∧
    ((jobConclusion = none ∨ jobConclusion = some "" ∨ jobConclusion = some "unknown") →
      inferJobConclusion jobConclusion steps ∈
        (["success", "failure", "cancelled", "unknown"] : List String)) ∧
    (∀ s, jobConclusion = some s → s ≠ "" → s ≠ "unknown" →
      inferJobConclusion jobConclusion steps = s) := by
  have hmem := inferConclusionFromSteps_mem_four steps
  have hne : inferConclusionFromSteps steps ≠ "" := by
    have hall : ∀ x ∈ (["success", "failure", "cancelled", "unknown"] : List String),
        x ≠ "" := by decide
    exact hall _ hmem
  refine ⟨?_, ?_, ?_⟩
  · match hc : jobConclusion with
    | none => simpa [inferJobConclusion] using hne
    | some s =>
      by_cases h : s = "" ∨ s = "unknown"
      · simpa [inferJobConclusion, h] using hne
      · simp only [inferJobConclusion, if_neg h]
        intro habs
        exact h (Or.inl habs)
  · intro h
    rcases h with h | h | h <;> simp [inferJobConclusion, h, hmem]
  · intro s hs h1 h2
    simp [inferJobConclusion, hs, h1, h2]

/-- **C4 counterexample**: a raw conclusion of `"timed_out"` (a value the
jobs API does produce) is returned unchanged by the short-circuit, so the
result is *not* always in {success, failure, cancelled, unknown}. -/
theorem inferJobConclusion_outside_four_cex :
    inferJobConclusion (some "timed_out") [] = "timed_out" ∧
    "timed_out" ∉ (["success", "failure", "cancelled", "unknown"] : List String) := by
  exact ⟨rfl, by decide⟩

/-- Witness for `inferJobConclusion_never_null`: at the sentinel
`"unknown"` raw conclusion with no steps, the result lies in the
four-element set. -/
theorem inferJobConclusion_never_null_witness :
    inferJobConclusion (some "unknown") [] ∈
      (["success", "failure", "cancelled", "unknown"] : List String) :=
  (inferJobConclusion_never_null (some "unknown") []).2.1 (Or.inr (Or.inr rfl))

/-- The steps the Conclusion Inferencer considers: exactly those with a
non-null conclusion (`steps.filter(s => s.conclusion !== null)`). -/
def consideredSteps (steps : List NormalizedStep) : List NormalizedStep :=
  steps.filter (fun s => s.conclusion.isSome)

/-- **C2**: on the inference path (raw conclusion null or `"unknown"`),
the Conclusion Inferencer considers only steps with non-null conclusion
and applies the priority chain: any failure → `"failure"`; else any
cancelled → `"cancelled"`; else a non-empty considered list that is all
success-or-skipped → `"success"`; else (no considered steps, or a mixed/
unrecognized conclusion present) → `"unknown"`. -/
theorem inferJobConclusion_priority_chain (jobConclusion : Option String)
    (steps : List NormalizedStep)
    (h : jobConclusion = none ∨ jobConclusion = some "unknown") :
    ((∃ s ∈ consideredSteps steps, s.conclusion = some "failure") →
        inferJobConclusion jobConclusion steps = "failure") ∧
    ((¬ ∃ s ∈ consideredSteps steps, s.conclusion = some "failure") →
      (∃ s ∈ consideredSteps steps, s.conclusion = some "cancelled") →
        inferJobConclusion jobConclusion steps = "cancelled") ∧
    ((¬ ∃ s ∈ consideredSteps steps, s.conclusion = some "failure") →
      (¬ ∃ s ∈ consideredSteps steps, s.conclusion = some "cancelled") →
      consideredSteps steps ≠ [] →
      (∀ s ∈ consideredSteps steps,
          s.conclusion = some "success" ∨ s.conclusion = some "skipped") →
        inferJobConclusion jobConclusion steps = "success") ∧
    ((consideredSteps steps = [] ∨
        ((¬ ∃ s ∈ consideredSteps steps, s.conclusion = some "failure") ∧
         (¬ ∃ s ∈ consideredSteps steps, s.conclusion = some "cancelled") ∧
         ∃ s ∈ consideredSteps steps,
           ¬ (s.conclusion = some "success" ∨ s.conclusion = some "skipped"))) →
        inferJobConclusion jobConclusion steps = "unknown") := by
  have hred : inferJobConclusion jobConclusion steps = inferConclusionFromSteps steps := by
    rcases h with h | h <;> simp [inferJobConclusion, h]
  have hfail : (consideredSteps steps).any (fun s => s.conclusion == some "failure") = true
      ↔ ∃ s ∈ consideredSteps steps, s.conclusion = some "failure" := by
    simp [List.any_eq_true]
  have hcanc : (consideredSteps steps).any (fun s => s.conclusion == some "cancelled") = true
      ↔ ∃ s ∈ consideredSteps steps, s.conclusion = some "cancelled" := by
    simp [List.any_eq_true]
  have hsucc : (consideredSteps steps).all
        (fun s => s.conclusion == some "success" || s.conclusion == some "skipped") = true
      ↔ ∀ s ∈ consideredSteps steps,
          s.conclusion = some "success" ∨ s.conclusion = some "skipped" := by
    simp [List.all_eq_true]
  have hinfer : inferConclusionFromSteps steps =
      (if (consideredSteps steps).any (fun s => s.conclusion == some "failure") then "failure"
       else if (consideredSteps steps).any (fun s => s.conclusion == some "cancelled") then
         "cancelled"
       else if 0 < (consideredSteps steps).length ∧ (consideredSteps steps).all
           (fun s => s.conclusion == some "success" || s.conclusion == some "skipped") = true then
         "success"
       else "unknown") := rfl
  rw [hred, hinfer]
  refine ⟨?_, ?_, ?_, ?_⟩
  · intro he
    rw [if_pos (hfail.mpr he)]
  · intro hnf he
    rw [if_neg (fun hc => hnf (hfail.mp hc)), if_pos (hcanc.mpr he)]
  · intro hnf hnc hne hall
    rw [if_neg (fun hc => hnf (hfail.mp hc)), if_neg (fun hc => hnc (hcanc.mp hc)),
        if_pos ⟨List.length_pos.mpr hne, hsucc.mpr hall⟩]
  · intro hd
    rcases hd with he | ⟨hnf, hnc, s, hs, hbad⟩
    · simp [he]
    · have h3 : ¬(0 < (consideredSteps steps).length ∧ (consideredSteps steps).all
          (fun s => s.conclusion == some "success" || s.conclusion == some "skipped") = true) :=
        fun hc => hbad (hsucc.mp hc.2 s hs)
      rw [if_neg (fun hc => hnf (hfail.mp hc)), if_neg (fun hc => hnc (hcanc.mp hc)),
          if_neg h3]

/-- A normalized step that failed (non-null conclusion `"failure"`). -/
def failedNStep : NormalizedStep :=
  { name := "Test", status := "completed", conclusion := some "failure",
    number := 3, startedAt := JsDate.valid 0, completedAt := JsDate.valid 1000,
    durationMs := some 1000 }

/-- Witness for `inferJobConclusion_priority_chain`: a null raw
conclusion with one failed step infers `"failure"`. -/
theorem inferJobConclusion_priority_chain_witness :
    inferJobConclusion none [failedNStep] = "failure" :=
  (inferJobConclusion_priority_chain none [failedNStep] (Or.inl rfl)).1
    ⟨failedNStep, by decide, rfl⟩

/-- Projection extracting the value of a job-duration sample. -/
def jobSample : Emission → Option (Option Int)
  | Emission.jobDuration v => some v
  | _ => none

/-- Projection extracting step-duration samples as (name, value). -/
def stepSample : Emission → Option (String × Option Int)
  | Emission.stepDuration n v => some (n, v)
  | _ => none

lemma jobSample_repoSizeSamples (o : Option Int) :
    (repoSizeSamples o).filterMap jobSample = [] := by
  cases o with
  | none => rfl
  | some v =>
    by_cases h : v ≠ 0 <;> simp [repoSizeSamples, h, jobSample]

lemma jobSample_costSamples (runner : Option RunnerInfo) (d : Option Int) :
    (costSamples runner d).filterMap jobSample = [] := by
  cases runner with
  | none => rfl
  | some r =>
    by_cases h : r.os ≠ "" <;> simp [costSamples, h, jobSample]

lemma jobSample_artifactSamples (a : Option ArtifactSummary) :
    (artifactSamples a).filterMap jobSample = [] := by
  cases a with
  | none => rfl
  | some s =>
    by_cases h : 0 < s.count <;>
      simp [artifactSamples, h, jobSample, List.filterMap_map, Function.comp]

lemma jobSample_stepDurationSamples (steps : List NormalizedStep) :
    (stepDurationSamples steps).filterMap jobSample = [] := by
  induction steps with
  | nil => rfl
  | cons s t ih =>
    by_cases h : jsGtZero s.durationMs = true <;>
      simp [stepDurationSamples, List.filterMap_cons, h, jobSample] <;>
      simpa [stepDurationSamples] using ih

lemma stepSample_repoSizeSamples (o : Option Int) :
    (repoSizeSamples o).filterMap stepSample = [] := by
  cases o with
  | none => rfl
  | some v =>
    by_cases h : v ≠ 0 <;> simp [repoSizeSamples, h, stepSample]

lemma stepSample_costSamples (runner : Option RunnerInfo) (d : Option Int) :
    (costSamples runner d).filterMap stepSample = [] := by
  cases runner with
  | none => rfl
  | some r =>
    by_cases h : r.os ≠ "" <;> simp [costSamples, h, stepSample]

lemma stepSample_artifactSamples (a : Option ArtifactSummary) :
    (artifactSamples a).filterMap stepSample = [] := by
  cases a with
  | none => rfl
  | some s =>
    by_cases h : 0 < s.count <;>
      simp [artifactSamples, h, stepSample, List.filterMap_map, Function.comp]

/-- The step-duration samples of the final loop of `recordMetrics` are
exactly the steps with (JS) positive duration, in order. -/
lemma stepSample_stepDurationSamples (steps : List NormalizedStep) :
    (stepDurationSamples steps).filterMap stepSample
    = (steps.filter (fun s => jsGtZero s.durationMs)).map
        (fun s => (s.name, s.durationMs)) := by
  induction steps with
  | nil => rfl
  | cons s t ih =>
    by_cases h : jsGtZero s.durationMs = true
    · simp only [stepDurationSamples, List.filterMap_cons, List.filter_cons, h,
        ite_true, stepSample, List.map_cons]
      exact congrArg _ (by simpa [stepDurationSamples] using ih)
    · simp only [stepDurationSamples, List.filterMap_cons, List.filter_cons, h,
        Bool.false_eq_true, ite_false]
      simpa [stepDurationSamples] using ih

/-- **C6**: every invocation of `recordMetrics` records exactly one
job-duration sample — carrying the job's `durationMs`, whatever it is
(including 0 or an estimate) — and records a step-duration sample exactly
for the steps whose `durationMs > 0` (JS comparison) — in particular
never for a step with `durationMs = 0`. -/
theorem recordMetrics_sample_discipline (m : MetricsRecord) :
    (recordMetrics m).filterMap jobSample = [m.job.durationMs] ∧
    (recordMetrics m).filterMap stepSample
      = (m.steps.filter (fun s => jsGtZero s.durationMs)).map
          (fun s => (s.name, s.durationMs)) ∧
    ∀ n v, Emission.stepDuration n v ∈ recordMetrics m → jsGtZero v = true := by
  refine ⟨?_, ?_, ?_⟩
  · simp [recordMetrics, List.filterMap_append, jobSample,
      jobSample_repoSizeSamples, jobSample_costSamples,
      jobSample_artifactSamples, jobSample_stepDurationSamples]
  · simp [recordMetrics, List.filterMap_append, stepSample,
      stepSample_repoSizeSamples, stepSample_costSamples,
      stepSample_artifactSamples, stepSample_stepDurationSamples]
  · intro n v hmem
    simp only [recordMetrics, List.mem_append, List.mem_singleton] at hmem
    rcases hmem with ((((h | h) | h) | h) | h)
    · cases h
    · exfalso
      revert h
      unfold repoSizeSamples
      cases m.repository.sizeKB with
      | none => simp
      | some w => by_cases hw : w ≠ 0 <;> simp [hw]
    · exfalso
      revert h
      unfold costSamples
      cases m.runner with
      | none => simp
      | some r => by_cases hr : r.os ≠ "" <;> simp [hr]
    · exfalso
      revert h
      unfold artifactSamples
      cases m.artifacts with
      | none => simp
      | some a => by_cases ha : 0 < a.count <;> simp [ha]
    · rw [stepDurationSamples, List.mem_filterMap] at h
      obtain ⟨s, _, hs⟩ := h
      revert hs
      by_cases hgt : jsGtZero s.durationMs = true <;> simp [hgt]
      intro _ hv
      rw [← hv]
      exact hgt

/-- A repo-size gauge sample appears in the output of `recordMetrics`
exactly when `sizeKB` is present *and* nonzero (JS truthiness). -/
lemma repoSize_mem_recordMetrics (m : MetricsRecord) (v : Int) :
    Emission.repoSize v ∈ recordMetrics m ↔
      (m.repository.sizeKB = some v ∧ v ≠ 0) := by
  constructor
  · intro hmem
    simp only [recordMetrics, List.mem_append, List.mem_singleton] at hmem
    rcases hmem with ((((h | h) | h) | h) | h)
    · cases h
    · revert h
      unfold repoSizeSamples
      cases m.repository.sizeKB with
      | none => intro h; cases h
      | some w =>
        by_cases hw : w ≠ 0
        · intro h
          simp [hw] at h
          subst h
          exact ⟨rfl, hw⟩
        · intro h
          simp [hw] at h
    · exfalso
      revert h
      unfold costSamples
      cases m.runner with
      | none => simp
      | some r => by_cases hr : r.os ≠ "" <;> simp [hr]
    · exfalso
      revert h
      unfold artifactSamples
      cases m.artifacts with
      | none => simp
      | some a => by_cases ha : 0 < a.count <;> simp [ha]
    · exfalso
      revert h
      rw [stepDurationSamples, List.mem_filterMap]
      rintro ⟨s, _, hs⟩
      revert hs
      by_cases hgt : jsGtZero s.durationMs = true <;> simp [hgt]
  · rintro ⟨hs, hv⟩
    simp only [recordMetrics, List.mem_append, List.mem_singleton]
    exact Or.inl (Or.inl (Or.inl (Or.inr (by simp [repoSizeSamples, hs, hv]))))

/-- **C10**: metric emission gates the repository-size gauge on JS
truthiness of `sizeKB`, not on presence: a record with `sizeKB = 0`
yields no gauge sample, and produces exactly the same emission sequence
as the same record with `sizeKB` null (size unfetchable) — the two are
indistinguishable at the metric interface. -/
theorem recordMetrics_repo_size_truthiness (m : MetricsRecord) :
    ((∃ v, Emission.repoSize v ∈ recordMetrics m) ↔
      (∃ v, m.repository.sizeKB = some v ∧ v ≠ 0)) ∧
    recordMetrics { m with repository := { m.repository with sizeKB := some 0 } }
      = recordMetrics { m with repository := { m.repository with sizeKB := none } } := by
  constructor
  · exact exists_congr (fun v => repoSize_mem_recordMetrics m v)
  · rfl

/-- A cost sample appears in the output of `recordMetrics` exactly when
the record's runner field is present with a truthy `os`, and carries the
table-lookup estimate for {OS, primary label}. -/
lemma jobCost_mem_recordMetrics (m : MetricsRecord) (c : Option ℚ) :
    Emission.jobCost c ∈ recordMetrics m ↔
      (∃ r, m.runner = some r ∧ r.os ≠ "" ∧
        c = estimateJobCost r.os (primaryRunnerLabel r) m.job.durationMs) := by
  constructor
  · intro hmem
    simp only [recordMetrics, List.mem_append, List.mem_singleton] at hmem
    rcases hmem with ((((h | h) | h) | h) | h)
    · cases h
    · exfalso
      revert h
      unfold repoSizeSamples
      cases m.repository.sizeKB with
      | none => simp
      | some w => by_cases hw : w ≠ 0 <;> simp [hw]
    · revert h
      unfold costSamples
      cases m.runner with
      | none => intro h; cases h
      | some r =>
        by_cases hr : r.os ≠ ""
        · intro h
          simp [hr] at h
          exact ⟨r, rfl, hr, h⟩
        · intro h
          simp [hr] at h
    · exfalso
      revert h
      unfold artifactSamples
      cases m.artifacts with
      | none => simp
      | some a => by_cases ha : 0 < a.count <;> simp [ha]
    · exfalso
      revert h
      rw [stepDurationSamples, List.mem_filterMap]
      rintro ⟨s, _, hs⟩
      revert hs
      by_cases hgt : jsGtZero s.durationMs = true <;> simp [hgt]
  · rintro ⟨r, hr, hos, hc⟩
    simp only [recordMetrics, List.mem_append, List.mem_singleton]
    exact Or.inl (Or.inl (Or.inr (by simp [costSamples, hr, hos, hc])))

/-- **C5 (amended)**: `recordMetrics` emits the estimated-cost histogram
sample exactly when the record's runner field is present with a truthy
(non-empty) `os` string, with the cost looked up from the static
per-minute price table keyed by OS and by the core count parsed from the
primary runner label.  Because the record builder defaults `runner.os` to
`"unknown"` (a truthy string) whenever the environment does not supply an
OS, an unrecognized or self-hosted runner does *not* suppress the metric:
the price table yields 0 and a zero-valued sample is recorded. -/
theorem recordMetrics_cost_gate (m : MetricsRecord) :
    ((∃ c, Emission.jobCost c ∈ recordMetrics m) ↔
      (∃ r, m.runner = some r ∧ r.os ≠ "")) ∧
    (∀ r, m.runner = some r → r.os ≠ "" →
      Emission.jobCost (estimateJobCost r.os (primaryRunnerLabel r) m.job.durationMs)
        ∈ recordMetrics m) ∧
    (∀ env, buildRunnerOS env ≠ "") := by
  refine ⟨?_, ?_, ?_⟩
  · constructor
    · rintro ⟨c, hc⟩
      obtain ⟨r, hr, hos, _⟩ := (jobCost_mem_recordMetrics m c).mp hc
      exact ⟨r, hr, hos⟩
    · rintro ⟨r, hr, hos⟩
      exact ⟨_, (jobCost_mem_recordMetrics m _).mpr ⟨r, hr, hos, rfl⟩⟩
  · intro r hr hos
    exact (jobCost_mem_recordMetrics m _).mpr ⟨r, hr, hos, rfl⟩
  · intro env
    cases env with
    | none => simp [buildRunnerOS]
    | some s => by_cases hs : s = "" <;> simp [buildRunnerOS, hs]

/-- A self-hosted runner as the record builder presents it: the
environment supplied no recognizable OS, so `os` defaulted to
`"unknown"`. -/
def unknownRunner : RunnerInfo :=
  { os := "unknown", arch := "X64", name := some "my-runner",
    labels := ["self-hosted"] }

/-- A metrics record for a one-minute job on that self-hosted runner. -/
def selfHostedRecord : MetricsRecord :=
  { workflow := "CI",
    job := { name := "build", id := 9, status := "completed",
             conclusion := some "success", startedAt := JsDate.valid 0,
             completedAt := JsDate.valid 60000, durationMs := some 60000 },
    steps := [], repository := { owner := "o", repo := "r", sizeKB := none },
    runner := some unknownRunner, artifacts := none }

/-- **C5 counterexample**: for an unrecognized runner OS (`"unknown"`,
the record builder's default) the cost metric is *not* omitted — a
zero-valued cost sample is recorded, because the truthiness gate
`metrics.runner && metrics.runner.os` passes and the price table falls
back to 0 per minute. -/
theorem recordMetrics_zero_cost_for_unknown_os_cex :
    selfHostedRecord.runner = some unknownRunner ∧
    unknownRunner.os = "unknown" ∧
    Emission.jobCost (some 0) ∈ recordMetrics selfHostedRecord := by
  have hscan : coresMatchGroup "self-hosted" = none := rfl
  have hbase : standardPricing "unknown" = none := rfl
  have hcost : estimateJobCost "unknown" (some "self-hosted") (some 60000) = some 0 := by
    simp [estimateJobCost, hscan, hbase]
  refine ⟨rfl, rfl, ?_⟩
  exact (jobCost_mem_recordMetrics selfHostedRecord (some 0)).mpr
    ⟨unknownRunner, rfl, by decide, hcost.symm⟩

/-- Witness for `recordMetrics_cost_gate` at the self-hosted record. -/
theorem recordMetrics_cost_gate_witness :
    Emission.jobCost (estimateJobCost unknownRunner.os (primaryRunnerLabel unknownRunner)
        selfHostedRecord.job.durationMs)
      ∈ recordMetrics selfHostedRecord :=
  (recordMetrics_cost_gate selfHostedRecord).2.1 unknownRunner rfl (by decide)

/-- The last-resort pick is one of the legs. -/
lemma mostRecent_mem (a : RawJob) (rest : List RawJob) :
    mostRecent a rest ∈ a :: rest := by
  induction rest generalizing a with
  | nil => simp [mostRecent]
  | cons x xs ih =>
    simp only [mostRecent, List.foldl_cons]
    by_cases h : sortKey a < sortKey x
    · rw [if_pos h]
      exact List.mem_cons_of_mem a (ih x)
    · rw [if_neg h]
      have hsub : (a :: xs) ⊆ a :: x :: xs := by
        intro y hy
        rcases List.mem_cons.mp hy with h1 | h1
        · rw [h1]; exact List.mem_cons_self _ _
        · exact List.mem_cons_of_mem _ (List.mem_cons_of_mem _ h1)
      exact hsub (ih a)

/-- The last-resort pick has the maximal start key among the legs. -/
lemma mostRecent_max (a : RawJob) (rest : List RawJob) :
    ∀ k ∈ a :: rest, sortKey k ≤ sortKey (mostRecent a rest) := by
  induction rest generalizing a with
  | nil =>
    intro k hk
    rcases List.mem_cons.mp hk with h1 | h1
    · rw [h1]
      exact le_refl _
    · cases h1
  | cons x xs ih =>
    intro k hk
    simp only [mostRecent, List.foldl_cons]
    by_cases h : sortKey a < sortKey x
    · rw [if_pos h]
      rcases List.mem_cons.mp hk with h1 | h1
      · rw [h1]
        exact le_trans (le_of_lt h) (ih x x (List.mem_cons_self _ _))
      · rcases List.mem_cons.mp h1 with h2 | h2
        · rw [h2]
          exact ih x x (List.mem_cons_self _ _)
        · exact ih x k (List.mem_cons_of_mem _ h2)
    · rw [if_neg h]
      rcases List.mem_cons.mp hk with h1 | h1
      · rw [h1]
        exact ih a a (List.mem_cons_self _ _)
      · rcases List.mem_cons.mp h1 with h2 | h2
        · rw [h2]
          exact le_trans (not_lt.mp h) (ih a a (List.mem_cons_self _ _))
        · exact ih a k (List.mem_cons_of_mem _ h2)

/-- **C1**: on a non-empty job list the resolver follows the ordered
fallback chain, first match winning: the first exact name match wins
outright; otherwise a unique matrix-name match (`"<base> ("` prefix) is
returned; with multiple matrix legs, the first leg whose `runner_name`
equals a supplied non-empty runner identity wins regardless of status
and start-time ordering; failing a runner match, the first leg with
status `"in_progress"`; failing that, a leg carrying the maximal (most
recent) start timestamp. -/
theorem findCurrentJob_fallback_chain (jobs : List RawJob) (base : String)
    (env : Option String) (_hne : jobs ≠ []) :
    (∀ j, jobs.find? (fun x => x.name == base) = some j →
        findCurrentJob jobs base env = Except.ok j) ∧
    (jobs.find? (fun x => x.name == base) = none →
      (∀ j, matrixLegs jobs base = [j] →
          findCurrentJob jobs base env = Except.ok j) ∧
      (∀ a b rest, matrixLegs jobs base = a :: b :: rest →
        (∀ r j, env = some r → r ≠ "" →
          (a :: b :: rest).find? (fun x => x.runner_name == some r) = some j →
          findCurrentJob jobs base env = Except.ok j) ∧
        (runnerPick (a :: b :: rest) env = none →
          (∀ j, (a :: b :: rest).find? (fun x => x.status == "in_progress") = some j →
              findCurrentJob jobs base env = Except.ok j) ∧
          ((a :: b :: rest).find? (fun x => x.status == "in_progress") = none →
            (∀ k ∈ a :: b :: rest, k.started_at ≠ RawTime.malformed) →
            ∃ j, findCurrentJob jobs base env = Except.ok j ∧
              j ∈ a :: b :: rest ∧
              ∀ k ∈ a :: b :: rest, sortKey k ≤ sortKey j)))) := by
  refine ⟨?_, ?_⟩
  · intro j hj
    simp [findCurrentJob, hj]
  · intro h0
    refine ⟨?_, ?_⟩
    · intro j hj
      simp [findCurrentJob, h0, hj]
    · intro a b rest hm
      refine ⟨?_, ?_⟩
      · intro r j hr hrne hfind
        simp [findCurrentJob, h0, hm, runnerPick, hr, hrne, hfind]
      · intro hnone
        refine ⟨?_, ?_⟩
        · intro j hj
          simp [findCurrentJob, h0, hm, hnone, hj]
        · intro hnp _hwf
          refine ⟨mostRecent a (b :: rest), ?_, mostRecent_mem a (b :: rest),
            mostRecent_max a (b :: rest)⟩
          simp [findCurrentJob, h0, hm, hnone, hnp]

/-- A completed job record used to instantiate the resolver theorems. -/
def sampleJob : RawJob :=
  { id := 10, name := "build", status := "completed",
    conclusion := some "success", runner_name := some "runner-1",
    started_at := RawTime.stamp 0, completed_at := RawTime.stamp 1000,
    steps := [], labels := ["ubuntu-latest"] }

/-- Witness for `findCurrentJob_fallback_chain`: an exact name match is
returned. -/
theorem findCurrentJob_fallback_chain_witness :
    findCurrentJob [sampleJob] "build" none = Except.ok sampleJob :=
  (findCurrentJob_fallback_chain [sampleJob] "build" none
    (List.cons_ne_nil _ _)).1 sampleJob rfl

/-- **C7**: the resolver raises the fatal "No jobs found" error exactly
on an empty job sequence — on every non-empty sequence it returns a job
(never an error) — and when nothing matches by name at all (no exact
match, no matrix-pattern match) it falls back to the first job. -/
theorem findCurrentJob_empty_fatal_and_first_fallback (jobs : List RawJob)
    (base : String) (env : Option String) :
    (jobs = [] → findCurrentJob jobs base env =
        Except.error "No jobs found for this workflow run") ∧
    (∀ a tail, jobs = a :: tail →
      (∃ j, findCurrentJob jobs base env = Except.ok j) ∧
      (jobs.find? (fun x => x.name == base) = none → matrixLegs jobs base = [] →
        findCurrentJob jobs base env = Except.ok a)) := by
  refine ⟨?_, ?_⟩
  · intro h
    subst h
    rfl
  · intro a tail hj
    refine ⟨?_, ?_⟩
    · cases hf : jobs.find? (fun x => x.name == base) with
      | some j => exact ⟨j, by simp [findCurrentJob, hf]⟩
      | none =>
        cases hm : matrixLegs jobs base with
        | nil =>
          refine ⟨a, ?_⟩
          simp only [findCurrentJob, hf, hm]
          rw [hj]
        | cons x xs =>
          cases xs with
          | nil => exact ⟨x, by simp [findCurrentJob, hf, hm]⟩
          | cons y ys =>
            cases hrp : runnerPick (x :: y :: ys) env with
            | some j => exact ⟨j, by simp [findCurrentJob, hf, hm, hrp]⟩
            | none =>
              cases hip : (x :: y :: ys).find? (fun j => j.status == "in_progress") with
              | some j => exact ⟨j, by simp [findCurrentJob, hf, hm, hrp, hip]⟩
              | none =>
                exact ⟨mostRecent x (y :: ys),
                  by simp [findCurrentJob, hf, hm, hrp, hip]⟩
    · intro hf hm
      simp only [findCurrentJob, hf, hm]
      rw [hj]

/-- Witness for `findCurrentJob_empty_fatal_and_first_fallback`: with no
name match at all, the first job is returned. -/
theorem findCurrentJob_first_fallback_witness :
    findCurrentJob [sampleJob] "deploy" none = Except.ok sampleJob :=
  ((findCurrentJob_empty_fatal_and_first_fallback [sampleJob] "deploy" none).2
      sampleJob [] rfl).2 rfl rfl

/-- Witness for `recordMetrics_sample_discipline` at a concrete record:
exactly the one job-duration sample. -/
theorem recordMetrics_sample_discipline_witness :
    (recordMetrics selfHostedRecord).filterMap jobSample = [some 60000] :=
  (recordMetrics_sample_discipline selfHostedRecord).1

/-- Witness for `recordTraces_job_span_status` at a concrete record with
a completion timestamp: the job span is ended. -/
theorem recordTraces_job_span_status_witness :
    (recordTraces selfHostedRecord).jobSpanEnded = true :=
  ((recordTraces_job_span_status selfHostedRecord).1).mpr rfl

/-- Witness for `recordMetrics_repo_size_truthiness` at a concrete
record: zero size and null size emit identically. -/
theorem recordMetrics_repo_size_truthiness_witness :
    recordMetrics { selfHostedRecord with
        repository := { selfHostedRecord.repository with sizeKB := some 0 } }
      = recordMetrics { selfHostedRecord with
          repository := { selfHostedRecord.repository with sizeKB := none } } :=
  (recordMetrics_repo_size_truthiness selfHostedRecord).2

end OtelAction
